import Mathlib

/-!
Verification development for the Kokoro-FastAPI TTS service
(`api/src/services/tts_service.py`).

The service is embedded shallowly: external collaborators (the text
segmenter `smart_split`, the model manager, the voice manager, and the
audio encoder `AudioService.convert_audio`) are fields of an environment
record `Env`, and the service's own functions (`_get_voice_path`,
`_process_chunk`, `generate_audio_stream`, `generate_audio`) are
translated line by line into pure Lean functions over that environment.

Modelling conventions:
* raw audio sample arrays (1-d numpy float arrays) are lists of rationals;
* encoded payloads (python bytes) are lists of naturals;
* the mutable `AudioNormalizer` is an opaque state token threaded through
  each encoder call (a fresh normalizer is the token 0);
* python exceptions are the `Except Err` monad; generators are modelled by
  the list of items they yield plus, where the translation needs it, the
  optional exception that terminated them;
* each emitted unit records, as ghost data, whether it is a raw array or
  an encoded payload and, for encoded payloads, the `is_first_chunk` /
  `is_last_chunk` flags that were passed to the encoder for it.
-/

deriving instance DecidableEq for Except

/-- Raw audio samples: a 1-d numpy float array (so its `ndim` is 1). -/
abbrev Audio := List Rat

/-- An encoded binary payload (python `bytes`). -/
abbrev Bytes := List Nat

/-- Opaque state of one `AudioNormalizer`; `0` is a freshly constructed one. -/
abbrev NState := Nat

/-- A voice embedding tensor, element-indexed. -/
abbrev Tensor := Nat → Rat

/-- Python exceptions distinguished by the service (spec taxonomy names). -/
inductive Err where
  /-- `RuntimeError(f"Invalid combined voice name: {voice}")` -/
  | invalidVoiceSpec (voice : String)
  /-- `RuntimeError(f"Voice not found: {name}")` -/
  | voiceNotFound (name : String)
  /-- the model backend raised during inference -/
  | modelFailure
  /-- `AudioService.convert_audio` raised -/
  | encodeFailure
  /-- attribute access on an object lacking it (e.g. `bytes.ndim`) -/
  | attributeError
  /-- `ValueError("No audio chunks were generated successfully")` etc. -/
  | emptyResult
  deriving Repr, DecidableEq

/-- One unit yielded to the caller of the stream: either a raw sample
array, or an encoder output tagged (as ghost data) with the
`is_first_chunk` / `is_last_chunk` flags the encoder was called with. -/
inductive Emitted where
  | raw (samples : Audio)
  | enc (payload : Bytes) (firstFlag lastFlag : Bool)
  deriving Repr, DecidableEq

/-- `true` iff the unit is an encoder output (bytes), not a raw array. -/
def Emitted.isEnc : Emitted → Bool
  | .raw _ => false
  | .enc _ _ _ => true

/-- The arguments of one `_process_chunk` call recorded by the
orchestrator: its text, tokens and first/last flags. -/
structure CallArgs where
  text : String
  tokens : List Int
  isFirstArg : Bool
  isLastArg : Bool
  deriving Repr, DecidableEq

/-- Result of `_get_voice_path`: the `(voice name, voice path)` pair the
python function returns, plus ghost data recording the combined tensor
persisted to the scratch file (`none` for a single, uncombined voice). -/
structure VoiceRes where
  name : String
  path : String
  persisted : Option Tensor

/-- External collaborators of the service, with the call contracts the
source uses. Generators are given as the list of items they yield
together with the exception, if any, that ended them. -/
structure Env where
  /-- `smart_split(text)`: lazy sequence of `(chunk_text, tokens)`. -/
  smart_split : String → List (String × List Int)
  /-- whether `model_manager.get_backend()` is a `KokoroV1` instance. -/
  backendV1 : Bool
  /-- Kokoro-V1 `model_manager.generate(chunk_text, (name, path), speed)`:
  the audio sub-chunks it yields, then the exception (if any) that ended
  the generator. -/
  generateV1 : String → String × String → Rat → List Audio × Option Err
  /-- legacy `model_manager.generate(tokens, voice_tensor, speed)`:
  one audio buffer, `none` modelling python `None`, or an exception. -/
  generateLegacy : List Int → Tensor → Rat → Except Err (Option Audio)
  /-- legacy `voice_manager.load_voice(name, device)`. -/
  load_voice : String → Except Err Tensor
  /-- `voice_manager.get_voice_path(name)`: a path, or absent. -/
  get_voice_path : String → Option String
  /-- `torch.load(path, map_location="cpu")`. -/
  load_tensor : String → Tensor
  /-- `AudioService.convert_audio(audio, rate, fmt, is_first_chunk,
  normalizer, is_last_chunk)`: payload plus the mutated normalizer state,
  or an exception. -/
  convert_audio : Audio → Nat → String → Bool → NState → Bool → Except Err (Bytes × NState)

/-- Python `voice.split("+")`: split a character list on `'+'`, keeping
empty pieces. -/
def pySplitPlus : List Char → List (List Char)
  | [] => [[]]
  | c :: cs =>
    if c = '+' then [] :: pySplitPlus cs
    else
      match pySplitPlus cs with
      | [] => [[c]]
      | w :: ws => (c :: w) :: ws

/-- Python `s.strip()`: drop leading and trailing whitespace. -/
def pyStrip (s : List Char) : List Char :=
  ((s.dropWhile Char.isWhitespace).reverse.dropWhile Char.isWhitespace).reverse

/-- Python `'+' in voice`. -/
def containsPlus (voice : String) : Bool :=
  voice.toList.contains '+'

/-- `[v.strip() for v in voice.split("+") if v.strip()]`. -/
def parseVoices (voice : String) : List String :=
  (((pySplitPlus voice.toList).map pyStrip).filter (fun v => v ≠ [])).map
    List.asString

/-- `os.path.join(tempfile.gettempdir(), f"{voice}.pt")`. -/
def tempPath (voice : String) : String :=
  "/tmp/" ++ voice ++ ".pt"

/-- `torch.mean(torch.stack(voice_tensors), dim=0)`: the element-wise
arithmetic mean of a list of tensors. -/
def stackMean (ts : List Tensor) : Tensor :=
  fun j => (ts.map (fun t => t j)).sum / ts.length

/-- The loading loop of the combined-voice branch: for each name, look up
its path (raising `VoiceNotFound` when absent) and `torch.load` it. -/
def loadAll (e : Env) : List String → Except Err (List Tensor)
  | [] => .ok []
  | v :: vs =>
    match e.get_voice_path v with
    | none => .error (.voiceNotFound v)
    | some p =>
      match loadAll e vs with
      | .error err => .error err
      | .ok ts => .ok (e.load_tensor p :: ts)

/-- `TTSService._get_voice_path`: resolve a voice spec, combining
`+`-joined voices by averaging their tensors and persisting the result. -/
def _get_voice_path (e : Env) (voice : String) : Except Err VoiceRes :=
  if containsPlus voice then
    let voices := parseVoices voice
    if voices.length < 2 then
      .error (.invalidVoiceSpec voice)
    else
      match loadAll e voices with
      | .error err => .error err
      | .ok ts => .ok ⟨voice, tempPath voice, some (stackMean ts)⟩
  else
    match e.get_voice_path voice with
    | none => .error (.voiceNotFound voice)
    | some p => .ok ⟨voice, p, none⟩

/-- Per-sub-chunk step of the Kokoro-V1 streaming loop (lines 90-105):
if an `output_format` is set, encode the sub-chunk (an encoding failure is
caught and the sub-chunk dropped), else yield it raw. The accumulator is
the units yielded so far and the normalizer state. -/
def convFold (e : Env) (output_format : Option String) (isFirst isLast : Bool)
    (acc : List Emitted × NState) (ca : Audio) : List Emitted × NState :=
  match output_format with
  | some fmt =>
    match e.convert_audio ca 24000 fmt isFirst acc.2 isLast with
    | .ok (b, n2) => (acc.1 ++ [.enc b isFirst isLast], n2)
    | .error _ => acc
  | none => (acc.1 ++ [.raw ca], acc.2)

/-- The body of `TTSService._process_chunk` (lines 57-138), i.e. the code
inside the semaphore but without the outermost `try/except`. Returns the
units the generator yields, the normalizer state after its encoder calls,
and the exception (if any) that escaped the body. Per-sub-chunk encoding
failures are caught by the inner `try/except` and only drop that
sub-chunk; they never appear in the error component. -/
def processChunkInner (e : Env) (chunk_text : String) (tokens : List Int)
    (voice_name voice_path : String) (speed : Rat)
    (output_format : Option String) (isFirst isLast : Bool)
    (nstate : NState) : List Emitted × NState × Option Err :=
  if isLast then
    match output_format with
    | none => ([.raw []], nstate, none)
    | some fmt =>
      match e.convert_audio [0] 24000 fmt false nstate true with
      | .ok (b, n') => ([.enc b false true], n', none)
      | .error err => ([], nstate, some err)
  else if tokens = [] ∧ chunk_text = "" then
    ([], nstate, none)
  else if e.backendV1 then
    let (subchunks, gerr) := e.generateV1 chunk_text (voice_name, voice_path) speed
    let (items, n') := subchunks.foldl
      (convFold e output_format isFirst isLast) (([] : List Emitted), nstate)
    (items, n', gerr)
  else
    match e.load_voice voice_name with
    | .error err => ([], nstate, some err)
    | .ok vt =>
      match e.generateLegacy tokens vt speed with
      | .error err => ([], nstate, some err)
      | .ok none => ([], nstate, none)
      | .ok (some ca) =>
        if ca = [] then ([], nstate, none)
        else
          match output_format with
          | some fmt =>
            match e.convert_audio ca 24000 fmt isFirst nstate isLast with
            | .ok (b, n') => ([.enc b isFirst isLast], n', none)
            | .error _ => ([], nstate, none)
          | none => ([.raw ca], nstate, none)

/-- `TTSService._process_chunk` as its consumer observes it: the outermost
`try/except Exception` catches and logs whatever escaped the body, so the
generator simply stops; the units yielded before the exception were
already delivered. The third component is the exception that reaches the
consumer. -/
def _process_chunk (e : Env) (chunk_text : String) (tokens : List Int)
    (voice_name voice_path : String) (speed : Rat)
    (output_format : Option String) (isFirst isLast : Bool)
    (nstate : NState) : List Emitted × NState × Option Err :=
  match processChunkInner e chunk_text tokens voice_name voice_path speed
      output_format isFirst isLast nstate with
  | (items, n', some _) => (items, n', none)
  | (items, n', none) => (items, n', none)

/-- The per-segment loop of `generate_audio_stream` (lines 213-235): walk
the segments in order, calling `_process_chunk` with
`is_first = (chunk_index == 0)` and `is_last = False`, re-yielding every
unit and incrementing `chunk_index` per unit. Returns the units, the
final `chunk_index`, the normalizer state, and the recorded calls. -/
def streamSegs (e : Env) (voice_name voice_path : String) (speed : Rat)
    (output_format : Option String) :
    List (String × List Int) → Nat → NState →
      List Emitted × Nat × NState × List CallArgs
  | [], idx, nstate => ([], idx, nstate, [])
  | (t, toks) :: rest, idx, nstate =>
    let r := _process_chunk e t toks voice_name voice_path speed
      output_format (idx == 0) false nstate
    let rec' := streamSegs e voice_name voice_path speed output_format
      rest (idx + r.1.length) r.2.1
    (r.1 ++ rec'.1, rec'.2.1, rec'.2.2.1,
      ⟨t, toks, idx == 0, false⟩ :: rec'.2.2.2)

/-- `TTSService.generate_audio_stream`: resolve the voice (failures
propagate), run the per-segment loop with a fresh normalizer, then, only
if `chunk_index > 0`, make the single finalization call (empty text and
tokens, `is_first=False, is_last=True`) and emit its units. Returns the
emitted units together with the recorded `_process_chunk` calls. -/
def generate_audio_stream (e : Env) (text voice : String) (speed : Rat)
    (output_format : Option String := some "wav") :
    Except Err (List Emitted × List CallArgs) :=
  match _get_voice_path e voice with
  | .error err => .error err
  | .ok vr =>
    let r := streamSegs e vr.name vr.path speed output_format
      (e.smart_split text) 0 0
    if r.2.1 > 0 then
      let fin := _process_chunk e "" [] vr.name vr.path speed output_format
        false true r.2.2.1
      .ok (r.1 ++ fin.1, r.2.2.2 ++ [⟨"", [], false, true⟩])
    else
      .ok (r.1, r.2.2.2)

/-- `c.ndim` for a collected chunk: raw sample arrays are 1-d numpy
arrays, so their `ndim` is 1; a `bytes` payload has no `ndim` attribute,
so accessing it raises `AttributeError`. -/
def ndim : Emitted → Except Err Nat
  | .raw _ => .ok 1
  | .enc _ _ _ => .error .attributeError

/-- `[c for c in chunks if c.ndim > 0]`, keeping the samples of the
surviving chunks; the first `bytes` chunk raises `AttributeError`. -/
def filterNdim : List Emitted → Except Err (List Audio)
  | [] => .ok []
  | c :: cs =>
    match c, ndim c with
    | _, .error err => .error err
    | .raw a, .ok n =>
      match filterNdim cs with
      | .error err => .error err
      | .ok r => .ok (if n > 0 then a :: r else r)
    | .enc _ _ _, .ok _ => .error .attributeError

/-- `TTSService.generate_audio`: drive `generate_audio_stream` with the
call's default `output_format` (`"wav"`), collect every chunk, raise
`ValueError` if none, return a single chunk as-is, else filter by `ndim`
and `np.concatenate`. (The elapsed-time component is wall-clock and is
not modelled.) -/
def generate_audio (e : Env) (text voice : String) (speed : Rat) :
    Except Err Emitted :=
  match generate_audio_stream e text voice speed with
  | .error err => .error err
  | .ok (chunks, _) =>
    match chunks with
    | [] => .error .emptyResult
    | [c] => .ok c
    | _ =>
      match filterNdim chunks with
      | .error err => .error err
      | .ok valid =>
        if valid = [] then .error .emptyResult
        else .ok (.raw valid.flatten)

/-- The concatenation of all raw (unencoded) chunks the stream yields for
a request, i.e. the stream run with `output_format=None`. -/
def streamRawConcat (e : Env) (text voice : String) (speed : Rat) :
    Except Err Audio :=
  match generate_audio_stream e text voice speed none with
  | .error err => .error err
  | .ok (units, _) =>
    .ok (units.map (fun u => match u with | .raw a => a | .enc _ _ _ => [])).flatten

/-- The `is_first_chunk` flag an encoded unit was produced with (`false`
for raw units, which carry no flag). -/
def Emitted.firstFlagOf : Emitted → Bool
  | .raw _ => false
  | .enc _ fi _ => fi

/-- The `is_last_chunk` flag an encoded unit was produced with (`false`
for raw units, which carry no flag). -/
def Emitted.lastFlagOf : Emitted → Bool
  | .raw _ => false
  | .enc _ _ la => la

/-- A deterministic demo encoder: the payload records the sample count and
the incoming normalizer state, and the normalizer state advances by one. -/
def convDemo : Audio → Nat → String → Bool → NState → Bool → Except Err (Bytes × NState) :=
  fun a _ _ _ n _ => .ok ([a.length, n], n + 1)

/-- A concrete Kokoro-V1 environment used to evaluate the model on closed
inputs. -/
def envV1 : Env where
  smart_split := fun t =>
    if t = "" then []
    else if t = "hi" then [("hi", [1])]
    else if t = "abc" then [("a", [1]), ("b", [2]), ("c", [3])]
    else if t = "dd2" then [("dd", [7])]
    else []
  backendV1 := true
  generateV1 := fun t _ _ =>
    if t = "hi" then ([[5]], none)
    else if t = "a" then ([[1]], none)
    else if t = "b" then ([], some .modelFailure)
    else if t = "c" then ([[3]], none)
    else if t = "dd" then ([[1], [2]], none)
    else ([], none)
  generateLegacy := fun _ _ _ => .ok none
  load_voice := fun _ => .ok (fun _ => 0)
  get_voice_path := fun v =>
    if v = "a" then some "pa" else if v = "b" then some "pb"
    else if v = "v" then some "pv" else none
  load_tensor := fun p =>
    if p = "pa" then (fun j => (j : Rat)) else (fun j => 2 * j + 1)
  convert_audio := convDemo

example : parseVoices "a+b" = ["a", "b"] := by decide
example : parseVoices "a+" = ["a"] := by decide
example : parseVoices " a + b " = ["a", "b"] := by decide
example : parseVoices "+" = [] := by decide
example : containsPlus "a+b" = true := by decide
example : containsPlus "v" = false := by decide
example : _get_voice_path envV1 "a+" = .error (.invalidVoiceSpec "a+") := rfl
example : _get_voice_path envV1 "x" = .error (.voiceNotFound "x") := rfl
example : _get_voice_path envV1 "v" = .ok ⟨"v", "pv", none⟩ := rfl

example : generate_audio_stream envV1 "hi" "v" 1 (some "wav") =
    .ok ([.enc [1, 0] true false, .enc [1, 1] false true],
      [⟨"hi", [1], true, false⟩, ⟨"", [], false, true⟩]) := by decide

example : generate_audio_stream envV1 "hi" "v" 1 none =
    .ok ([.raw [5], .raw []], [⟨"hi", [1], true, false⟩, ⟨"", [], false, true⟩]) := by decide

example : generate_audio envV1 "hi" "v" 1 = .error .attributeError := by decide

example : streamRawConcat envV1 "hi" "v" 1 = .ok [5] := by decide

example : generate_audio_stream envV1 "dd2" "v" 1 (some "wav") =
    .ok ([.enc [1, 0] true false, .enc [1, 1] true false, .enc [1, 2] false true],
      [⟨"dd", [7], true, false⟩, ⟨"", [], false, true⟩]) := by decide

example : generate_audio_stream envV1 "abc" "v" 1 (some "wav") =
    .ok ([.enc [1, 0] true false, .enc [1, 1] false false, .enc [1, 2] false true],
      [⟨"a", [1], true, false⟩, ⟨"b", [2], false, false⟩, ⟨"c", [3], false, false⟩,
        ⟨"", [], false, true⟩]) := by decide

/-- The result the tensors of a resolvable name list load to: each name's
path looked up, then `torch.load`ed. -/
def loads (e : Env) (l : List String) : List Tensor :=
  l.map (fun v =>
    match e.get_voice_path v with
    | some p => e.load_tensor p
    | none => fun _ => 0)

theorem loadAll_ok (e : Env) :
    ∀ l : List String, (∀ v ∈ l, (e.get_voice_path v).isSome = true) →
      loadAll e l = .ok (loads e l) := by
  intro l hres
  induction l with
  | nil => rfl
  | cons v vs ih =>
    have hv := hres v (by simp)
    rcases hp : e.get_voice_path v with _ | p
    · rw [hp] at hv; simp at hv
    · have hvs := ih (fun x hx => hres x (by simp [hx]))
      simp [loadAll, loads, hp, hvs]

theorem loadAll_error (e : Env) :
    ∀ (l : List String) (err : Err), loadAll e l = .error err →
      ∃ v, err = .voiceNotFound v := by
  intro l
  induction l with
  | nil => intro err h; simp [loadAll] at h
  | cons v vs ih =>
    intro err h
    unfold loadAll at h
    rcases hp : e.get_voice_path v with _ | p <;> rw [hp] at h
    · simp at h; exact ⟨v, h.symm⟩

    · rcases hr : loadAll e vs with e' | ts <;> rw [hr] at h <;> simp at h
      exact h ▸ ih e' hr

theorem stackMean_perm {ts1 ts2 : List Tensor} (h : ts1.Perm ts2) :
    stackMean ts1 = stackMean ts2 := by
  funext j
  unfold stackMean
  rw [(h.map (fun t => t j)).sum_eq, h.length_eq]

theorem gvp_combined (e : Env) (v : String) (l : List String)
    (hpl : containsPlus v = true) (hp : parseVoices v = l)
    (hlen : 2 ≤ l.length)
    (hres : ∀ x ∈ l, (e.get_voice_path x).isSome = true) :
    _get_voice_path e v = .ok ⟨v, tempPath v, some (stackMean (loads e l))⟩ := by
  unfold _get_voice_path
  rw [hpl]
  simp only [hp, if_true]
  have hnot : ¬ (l.length < 2) := by omega
  rw [if_neg hnot, loadAll_ok e l hres]

theorem gvp_single (e : Env) (v : String) (hpl : containsPlus v = false) :
    _get_voice_path e v =
      match e.get_voice_path v with
      | none => .error (.voiceNotFound v)
      | some p => .ok ⟨v, p, none⟩ := by
  unfold _get_voice_path
  rw [hpl]
  simp

/-- C5: `_get_voice_path` raises `InvalidVoiceSpec` exactly for specs that
contain `+` but parse (split on `+`, strip, drop empties) to fewer than two
names; a spec without `+` is resolved directly as a single name, raising
`VoiceNotFound` when the voice manager has no path for it, and is never
treated as combined (nothing is persisted). -/
theorem invalid_spec_iff (e : Env) (voice : String) :
    (_get_voice_path e voice = .error (.invalidVoiceSpec voice) ↔
      containsPlus voice = true ∧ (parseVoices voice).length < 2) ∧
    (containsPlus voice = false →
      _get_voice_path e voice =
        match e.get_voice_path voice with
        | none => .error (.voiceNotFound voice)
        | some p => .ok ⟨voice, p, none⟩) := by
  constructor
  · constructor
    · intro h
      by_cases hpl : containsPlus voice
      · refine ⟨hpl, ?_⟩
        by_contra hlen
        unfold _get_voice_path at h
        rw [hpl] at h
        simp only [if_true] at h
        rw [if_neg hlen] at h
        rcases hl : loadAll e (parseVoices voice) with err | ts <;> rw [hl] at h
        · obtain ⟨v, hv⟩ := loadAll_error e _ err hl
          simp [hv] at h
        · simp at h
      · rw [gvp_single e voice (by simpa using hpl)] at h
        rcases hp : e.get_voice_path voice with _ | p <;> rw [hp] at h <;> simp at h
    · rintro ⟨hpl, hlen⟩
      unfold _get_voice_path
      rw [hpl]
      simp only [if_true]
      rw [if_pos hlen]
  · intro hpl
    exact gvp_single e voice hpl

theorem invalid_spec_iff_witness :
    (_get_voice_path envV1 "a+" = .error (.invalidVoiceSpec "a+")) ∧
    (_get_voice_path envV1 "+b" = .error (.invalidVoiceSpec "+b")) ∧
    (_get_voice_path envV1 "+" = .error (.invalidVoiceSpec "+")) ∧
    (_get_voice_path envV1 "v" = .ok ⟨"v", "pv", none⟩) := by
  refine ⟨(invalid_spec_iff envV1 "a+").1.mpr (by decide),
    (invalid_spec_iff envV1 "+b").1.mpr (by decide),
    (invalid_spec_iff envV1 "+").1.mpr (by decide), ?_⟩
  exact (invalid_spec_iff envV1 "v").2 (by decide)

/-- C6: for a combined spec naming at least two resolvable voices, the
persisted embedding is the element-wise arithmetic mean of the loaded
source embeddings, and combination is order-independent: two specs whose
parsed name lists are permutations of one another (e.g. `"a+b"` and
`"b+a"`) persist the identical combined tensor. -/
theorem combined_voice_mean_comm (e : Env) (v1 v2 : String)
    (l1 l2 : List String)
    (h1 : containsPlus v1 = true) (h2 : containsPlus v2 = true)
    (hp1 : parseVoices v1 = l1) (hp2 : parseVoices v2 = l2)
    (hlen : 2 ≤ l1.length) (hperm : l1.Perm l2)
    (hres : ∀ x ∈ l1, (e.get_voice_path x).isSome = true) :
    ∃ t : Tensor,
      _get_voice_path e v1 = .ok ⟨v1, tempPath v1, some t⟩ ∧
      _get_voice_path e v2 = .ok ⟨v2, tempPath v2, some t⟩ ∧
      ∀ j, t j = ((loads e l1).map (fun f => f j)).sum / ((l1.length : Nat) : Rat) := by
  refine ⟨stackMean (loads e l1), ?_, ?_, ?_⟩
  · exact gvp_combined e v1 l1 h1 hp1 hlen hres
  · have hres2 : ∀ x ∈ l2, (e.get_voice_path x).isSome = true :=
      fun x hx => hres x (hperm.mem_iff.mpr hx)
    have hlen2 : 2 ≤ l2.length := hperm.length_eq ▸ hlen
    have hmean : stackMean (loads e l2) = stackMean (loads e l1) :=
      stackMean_perm (hperm.map _).symm
    rw [gvp_combined e v2 l2 h2 hp2 hlen2 hres2, hmean]
  · intro j
    unfold stackMean
    rw [loads]
    simp [loads]

theorem combined_voice_mean_comm_witness :
    ∃ t : Tensor,
      _get_voice_path envV1 "a+b" = .ok ⟨"a+b", tempPath "a+b", some t⟩ ∧
      _get_voice_path envV1 "b+a" = .ok ⟨"b+a", tempPath "b+a", some t⟩ ∧
      ∀ j, t j = ((loads envV1 ["a", "b"]).map (fun f => f j)).sum /
        (((["a", "b"] : List String).length : Nat) : Rat) :=
  combined_voice_mean_comm envV1 "a+b" "b+a" ["a", "b"] ["b", "a"]
    (by decide) (by decide) (by decide) (by decide) (by decide)
    (List.Perm.swap "b" "a" []) (by decide)

/-- The outermost `try/except` of `_process_chunk`: its observable result
is the units and normalizer state of the body, with any body exception
swallowed. -/
theorem process_chunk_eq (e : Env) (t : String) (toks : List Int)
    (vn vp : String) (sp : Rat) (f : Option String) (fi la : Bool)
    (n : NState) :
    _process_chunk e t toks vn vp sp f fi la n =
      ((processChunkInner e t toks vn vp sp f fi la n).1,
        (processChunkInner e t toks vn vp sp f fi la n).2.1, none) := by
  unfold _process_chunk
  rcases processChunkInner e t toks vn vp sp f fi la n with ⟨items, n', err⟩
  cases err <;> rfl

/-- C9: consuming `_process_chunk` to exhaustion never raises to its
caller: every unit the body yielded before any exception is delivered, and
the exception component of the observable result is always `none` — any
exception thrown during finalization, model invocation or audio encoding
is caught inside the generator, which then simply stops yielding. -/
theorem process_chunk_never_raises (e : Env) (t : String) (toks : List Int)
    (vn vp : String) (sp : Rat) (f : Option String) (fi la : Bool)
    (n : NState) :
    (_process_chunk e t toks vn vp sp f fi la n).2.2 = none ∧
    (_process_chunk e t toks vn vp sp f fi la n).1 =
      (processChunkInner e t toks vn vp sp f fi la n).1 := by
  rw [process_chunk_eq]
  exact ⟨rfl, rfl⟩

theorem convFold_some (e : Env) (fmt : String) (fi la : Bool)
    (acc : List Emitted × NState) (ca : Audio) :
    convFold e (some fmt) fi la acc ca =
      match e.convert_audio ca 24000 fmt fi acc.2 la with
      | .ok (b, n2) => (acc.1 ++ [.enc b fi la], n2)
      | .error _ => acc := rfl

theorem processChunkInner_skip (e : Env) (t : String) (toks : List Int)
    (vn vp : String) (sp : Rat) (f : Option String) (fi : Bool) (n : NState)
    (h : toks = [] ∧ t = "") :
    processChunkInner e t toks vn vp sp f fi false n = ([], n, none) := by
  unfold processChunkInner
  rw [if_neg Bool.false_ne_true, if_pos h]

theorem processChunkInner_v1 (e : Env) (t : String) (toks : List Int)
    (vn vp : String) (sp : Rat) (f : Option String) (fi : Bool) (n : NState)
    (hb : e.backendV1 = true) (hskip : ¬(toks = [] ∧ t = "")) :
    processChunkInner e t toks vn vp sp f fi false n =
      (((e.generateV1 t (vn, vp) sp).1.foldl (convFold e f fi false)
          ([], n)).1,
        ((e.generateV1 t (vn, vp) sp).1.foldl (convFold e f fi false)
          ([], n)).2,
        (e.generateV1 t (vn, vp) sp).2) := by
  unfold processChunkInner
  rw [if_neg Bool.false_ne_true, if_neg hskip, hb, if_pos rfl]

theorem processChunkInner_legacy_some (e : Env) (t : String)
    (toks : List Int) (vn vp : String) (sp : Rat) (fmt : String) (fi : Bool)
    (n : NState) (hb : e.backendV1 = false)
    (hskip : ¬(toks = [] ∧ t = "")) :
    processChunkInner e t toks vn vp sp (some fmt) fi false n =
      match e.load_voice vn with
      | .error err => ([], n, some err)
      | .ok vt =>
        match e.generateLegacy toks vt sp with
        | .error err => ([], n, some err)
        | .ok none => ([], n, none)
        | .ok (some ca) =>
          if ca = [] then ([], n, none)
          else
            match e.convert_audio ca 24000 fmt fi n false with
            | .ok (b, n') => ([.enc b fi false], n', none)
            | .error _ => ([], n, none) := by
  unfold processChunkInner
  rw [if_neg Bool.false_ne_true, if_neg hskip, hb, if_neg Bool.false_ne_true]

theorem processChunkInner_last_none (e : Env) (t : String) (toks : List Int)
    (vn vp : String) (sp : Rat) (fi : Bool) (n : NState) :
    processChunkInner e t toks vn vp sp none fi true n = ([.raw []], n, none) := by
  unfold processChunkInner
  rw [if_pos rfl]

theorem processChunkInner_last_some (e : Env) (t : String) (toks : List Int)
    (vn vp : String) (sp : Rat) (fmt : String) (fi : Bool) (n : NState) :
    processChunkInner e t toks vn vp sp (some fmt) fi true n =
      match e.convert_audio [0] 24000 fmt false n true with
      | .ok (b, n') => ([.enc b false true], n', none)
      | .error err => ([], n, some err) := by
  unfold processChunkInner
  rw [if_pos rfl]

theorem convFold_units (e : Env) (fmt : String) (fi la : Bool) :
    ∀ (cs : List Audio) (acc : List Emitted × NState),
      (∀ u ∈ acc.1, ∃ b, u = .enc b fi la) →
      ∀ u ∈ (cs.foldl (convFold e (some fmt) fi la) acc).1,
        ∃ b, u = .enc b fi la := by
  intro cs
  induction cs with
  | nil => intro acc hacc u hu; exact hacc u hu
  | cons c cs ih =>
    intro acc hacc
    rw [List.foldl_cons]
    apply ih
    rw [convFold_some]
    rcases hc : e.convert_audio c 24000 fmt fi acc.2 la with err | ⟨b, n2⟩
    · exact hacc
    · intro u hu
      simp only [List.mem_append, List.mem_singleton] at hu
      rcases hu with hu | hu
      · exact hacc u hu
      · exact ⟨b, hu⟩

theorem process_chunk_units_flags (e : Env) (t : String) (toks : List Int)
    (vn vp : String) (sp : Rat) (fmt : String) (fi : Bool) (n : NState) :
    ∀ u ∈ (_process_chunk e t toks vn vp sp (some fmt) fi false n).1,
      ∃ b, u = .enc b fi false := by
  rw [process_chunk_eq]
  by_cases hskip : toks = [] ∧ t = ""
  · rw [processChunkInner_skip e t toks vn vp sp (some fmt) fi n hskip]
    simp
  · by_cases hb : e.backendV1
    · rw [processChunkInner_v1 e t toks vn vp sp (some fmt) fi n hb hskip]
      exact convFold_units e fmt fi false _ _ (by simp)
    · rw [processChunkInner_legacy_some e t toks vn vp sp fmt fi n
        (by simpa using hb) hskip]
      intro u hu
      split at hu
      · simp at hu
      · split at hu
        · simp at hu
        · simp at hu
        · split at hu
          · simp at hu
          · split at hu
            · simp at hu
              exact ⟨_, hu⟩
            · simp at hu

theorem process_chunk_isEnc (e : Env) (t : String) (toks : List Int)
    (vn vp : String) (sp : Rat) (fmt : String) (fi la : Bool) (n : NState) :
    ∀ u ∈ (_process_chunk e t toks vn vp sp (some fmt) fi la n).1,
      u.isEnc = true := by
  cases la with
  | false =>
    intro u hu
    obtain ⟨b, rfl⟩ := process_chunk_units_flags e t toks vn vp sp fmt fi n u hu
    rfl
  | true =>
    rw [process_chunk_eq,
      processChunkInner_last_some e t toks vn vp sp fmt fi n]
    intro u hu
    split at hu
    · simp at hu
      subst hu
      rfl
    · simp at hu

theorem streamSegs_nil (e : Env) (vn vp : String) (sp : Rat)
    (f : Option String) (idx : Nat) (n : NState) :
    streamSegs e vn vp sp f [] idx n = ([], idx, n, []) := rfl

theorem streamSegs_cons (e : Env) (vn vp : String) (sp : Rat)
    (f : Option String) (t : String) (toks : List Int)
    (rest : List (String × List Int)) (idx : Nat) (n : NState) :
    streamSegs e vn vp sp f ((t, toks) :: rest) idx n =
      ((_process_chunk e t toks vn vp sp f (idx == 0) false n).1 ++
        (streamSegs e vn vp sp f rest
          (idx + (_process_chunk e t toks vn vp sp f (idx == 0) false n).1.length)
          (_process_chunk e t toks vn vp sp f (idx == 0) false n).2.1).1,
        (streamSegs e vn vp sp f rest
          (idx + (_process_chunk e t toks vn vp sp f (idx == 0) false n).1.length)
          (_process_chunk e t toks vn vp sp f (idx == 0) false n).2.1).2.1,
        (streamSegs e vn vp sp f rest
          (idx + (_process_chunk e t toks vn vp sp f (idx == 0) false n).1.length)
          (_process_chunk e t toks vn vp sp f (idx == 0) false n).2.1).2.2.1,
        ⟨t, toks, idx == 0, false⟩ ::
          (streamSegs e vn vp sp f rest
            (idx + (_process_chunk e t toks vn vp sp f (idx == 0) false n).1.length)
            (_process_chunk e t toks vn vp sp f (idx == 0) false n).2.1).2.2.2) := rfl

theorem streamSegs_idx (e : Env) (vn vp : String) (sp : Rat)
    (f : Option String) :
    ∀ (segs : List (String × List Int)) (idx : Nat) (n : NState),
      (streamSegs e vn vp sp f segs idx n).2.1 =
        idx + (streamSegs e vn vp sp f segs idx n).1.length := by
  intro segs
  induction segs with
  | nil => intro idx n; rw [streamSegs_nil]; simp
  | cons seg rest ih =>
    intro idx n
    obtain ⟨t, toks⟩ := seg
    rw [streamSegs_cons]
    simp only [List.length_append]
    rw [ih]
    omega

theorem streamSegs_calls_not_last (e : Env) (vn vp : String) (sp : Rat)
    (f : Option String) :
    ∀ (segs : List (String × List Int)) (idx : Nat) (n : NState),
      ∀ c ∈ (streamSegs e vn vp sp f segs idx n).2.2.2,
        c.isLastArg = false := by
  intro segs
  induction segs with
  | nil => intro idx n c hc; rw [streamSegs_nil] at hc; simp at hc
  | cons seg rest ih =>
    intro idx n c hc
    obtain ⟨t, toks⟩ := seg
    rw [streamSegs_cons] at hc
    simp only [List.mem_cons] at hc
    rcases hc with rfl | hc
    · rfl
    · exact ih _ _ c hc

theorem streamSegs_units_enc (e : Env) (vn vp : String) (sp : Rat)
    (fmt : String) :
    ∀ (segs : List (String × List Int)) (idx : Nat) (n : NState),
      ∀ u ∈ (streamSegs e vn vp sp (some fmt) segs idx n).1,
        u.isEnc = true := by
  intro segs
  induction segs with
  | nil => intro idx n u hu; rw [streamSegs_nil] at hu; simp at hu
  | cons seg rest ih =>
    intro idx n u hu
    obtain ⟨t, toks⟩ := seg
    rw [streamSegs_cons] at hu
    simp only [List.mem_append] at hu
    rcases hu with hu | hu
    · exact process_chunk_isEnc e t toks vn vp sp fmt (idx == 0) false n u hu
    · exact ih _ _ u hu

theorem streamSegs_units_not_last (e : Env) (vn vp : String) (sp : Rat)
    (fmt : String) :
    ∀ (segs : List (String × List Int)) (idx : Nat) (n : NState),
      ∀ u ∈ (streamSegs e vn vp sp (some fmt) segs idx n).1,
        u.lastFlagOf = false := by
  intro segs
  induction segs with
  | nil => intro idx n u hu; rw [streamSegs_nil] at hu; simp at hu
  | cons seg rest ih =>
    intro idx n u hu
    obtain ⟨t, toks⟩ := seg
    rw [streamSegs_cons] at hu
    simp only [List.mem_append] at hu
    rcases hu with hu | hu
    · obtain ⟨b, rfl⟩ :=
        process_chunk_units_flags e t toks vn vp sp fmt (idx == 0) n u hu
      rfl
    · exact ih _ _ u hu

theorem streamSegs_units_not_first (e : Env) (vn vp : String) (sp : Rat)
    (fmt : String) :
    ∀ (segs : List (String × List Int)) (idx : Nat) (n : NState), 0 < idx →
      ∀ u ∈ (streamSegs e vn vp sp (some fmt) segs idx n).1,
        u.firstFlagOf = false := by
  intro segs
  induction segs with
  | nil => intro idx n _ u hu; rw [streamSegs_nil] at hu; simp at hu
  | cons seg rest ih =>
    intro idx n hidx u hu
    obtain ⟨t, toks⟩ := seg
    rw [streamSegs_cons] at hu
    have hz : (idx == 0) = false := by
      simp only [beq_eq_false_iff_ne]
      omega
    rw [hz] at hu
    simp only [List.mem_append] at hu
    rcases hu with hu | hu
    · obtain ⟨b, rfl⟩ :=
        process_chunk_units_flags e t toks vn vp sp fmt false n u hu
      rfl
    · exact ih _ _ (by omega) u hu

theorem streamSegs_first_split (e : Env) (vn vp : String) (sp : Rat)
    (fmt : String) :
    ∀ (segs : List (String × List Int)) (n : NState),
      (streamSegs e vn vp sp (some fmt) segs 0 n).1 = [] ∨
      ∃ k, 0 < k ∧
        (∀ u ∈ (streamSegs e vn vp sp (some fmt) segs 0 n).1.take k,
          u.firstFlagOf = true) ∧
        (∀ u ∈ (streamSegs e vn vp sp (some fmt) segs 0 n).1.drop k,
          u.firstFlagOf = false) := by
  intro segs
  induction segs with
  | nil => intro n; left; rfl
  | cons seg rest ih =>
    intro n
    obtain ⟨t, toks⟩ := seg
    rw [streamSegs_cons]
    by_cases hpc :
        (_process_chunk e t toks vn vp sp (some fmt) (0 == 0) false n).1 = []
    · rw [hpc]
      simp only [List.nil_append, List.length_nil, Nat.add_zero]
      exact ih _
    · right
      refine ⟨(_process_chunk e t toks vn vp sp (some fmt) (0 == 0) false n).1.length,
        List.length_pos.mpr hpc, ?_, ?_⟩
      · rw [List.take_left]
        intro u hu
        obtain ⟨b, rfl⟩ :=
          process_chunk_units_flags e t toks vn vp sp fmt (0 == 0) n u hu
        rfl
      · rw [List.drop_left]
        exact streamSegs_units_not_first e vn vp sp fmt rest _ _
          (by simpa using List.length_pos.mpr hpc) 

theorem stream_run (e : Env) (text voice : String) (sp : Rat)
    (f : Option String) (vr : VoiceRes)
    (hv : _get_voice_path e voice = .ok vr) :
    generate_audio_stream e text voice sp f =
      (if (streamSegs e vr.name vr.path sp f (e.smart_split text) 0 0).2.1 > 0 then
        .ok ((streamSegs e vr.name vr.path sp f (e.smart_split text) 0 0).1 ++
          (_process_chunk e "" [] vr.name vr.path sp f false true
            (streamSegs e vr.name vr.path sp f (e.smart_split text) 0 0).2.2.1).1,
          (streamSegs e vr.name vr.path sp f (e.smart_split text) 0 0).2.2.2 ++
            [⟨"", [], false, true⟩])
      else
        .ok ((streamSegs e vr.name vr.path sp f (e.smart_split text) 0 0).1,
          (streamSegs e vr.name vr.path sp f (e.smart_split text) 0 0).2.2.2)) := by
  unfold generate_audio_stream
  rw [hv]

/-- C1: for every run of `generate_audio_stream` (with the voice
resolved), after the segment sequence is exhausted the recorded call trace
contains exactly one finalization call — with empty text, empty tokens,
`is_first=false`, `is_last=true` — if and only if the emitted-chunk
counter is positive; when the counter is zero no finalization call is made
and the output contains no unit at all. -/
theorem finalize_iff_chunks (e : Env) (text voice : String) (sp : Rat)
    (f : Option String) (vr : VoiceRes) (su : List Emitted) (idx : Nat)
    (ns : NState) (scalls : List CallArgs)
    (hv : _get_voice_path e voice = .ok vr)
    (hseg : streamSegs e vr.name vr.path sp f (e.smart_split text) 0 0 =
      (su, idx, ns, scalls)) :
    ∃ units calls,
      generate_audio_stream e text voice sp f = .ok (units, calls) ∧
      calls.countP (fun c => c.isLastArg) = (if 0 < idx then 1 else 0) ∧
      ((∃ c ∈ calls, c.isLastArg = true) ↔ 0 < idx) ∧
      (∀ c ∈ calls, c.isLastArg = true → c = ⟨"", [], false, true⟩) ∧
      (idx = 0 → units = []) := by
  have hrun := stream_run e text voice sp f vr hv
  rw [hseg] at hrun
  have hcalls : ∀ c ∈ scalls, c.isLastArg = false := by
    have h := streamSegs_calls_not_last e vr.name vr.path sp f
      (e.smart_split text) 0 0
    rw [hseg] at h
    exact h
  have hc0 : scalls.countP (fun c => c.isLastArg) = 0 :=
    List.countP_eq_zero.mpr (by intro c hc; simp [hcalls c hc])
  have hlen : idx = su.length := by
    have h := streamSegs_idx e vr.name vr.path sp f (e.smart_split text) 0 0
    rw [hseg] at h
    simpa using h
  by_cases hidx : 0 < idx
  · rw [if_pos hidx] at hrun
    refine ⟨_, _, hrun, ?_, ?_, ?_, ?_⟩
    · rw [List.countP_append, hc0, if_pos hidx]
      rfl
    · exact ⟨fun _ => hidx, fun _ => ⟨⟨"", [], false, true⟩, by simp, rfl⟩⟩
    · intro c hc hlast
      rcases List.mem_append.mp hc with hc | hc
      · rw [hcalls c hc] at hlast; cases hlast
      · simpa using hc
    · intro h0; omega
  · rw [if_neg hidx] at hrun
    refine ⟨_, _, hrun, ?_, ?_, ?_, ?_⟩
    · rw [hc0, if_neg hidx]
    · constructor
      · rintro ⟨c, hc, hlast⟩
        rw [hcalls c hc] at hlast; cases hlast
      · intro h; exact absurd h hidx
    · intro c hc hlast
      rw [hcalls c hc] at hlast; cases hlast
    · intro _
      have : su.length = 0 := by omega
      exact List.length_eq_zero.mp this

theorem finalize_iff_chunks_witness :
    ∃ units calls,
      generate_audio_stream envV1 "hi" "v" 1 (some "wav") = .ok (units, calls) ∧
      calls.countP (fun c => c.isLastArg) = (if 0 < 1 then 1 else 0) ∧
      ((∃ c ∈ calls, c.isLastArg = true) ↔ 0 < 1) ∧
      (∀ c ∈ calls, c.isLastArg = true → c = ⟨"", [], false, true⟩) ∧
      (1 = 0 → units = []) :=
  finalize_iff_chunks envV1 "hi" "v" 1 (some "wav") ⟨"v", "pv", none⟩
    [.enc [1, 0] true false] 1 1 [⟨"hi", [1], true, false⟩] rfl (by decide)

/-- C4: for empty input text (with the voice resolving and the segmenter's
empty-input contract), `generate_audio_stream` yields an empty sequence —
no chunks and no finalization unit — and `generate_audio` raises the
empty-result error because zero units were collected. -/
theorem empty_text_stream_empty (e : Env) (voice : String) (sp : Rat)
    (f : Option String) (vr : VoiceRes)
    (hv : _get_voice_path e voice = .ok vr)
    (hss : e.smart_split "" = []) :
    generate_audio_stream e "" voice sp f = .ok ([], []) ∧
    generate_audio e "" voice sp = .error .emptyResult := by
  have key : ∀ g : Option String,
      generate_audio_stream e "" voice sp g = .ok ([], []) := by
    intro g
    have hrun := stream_run e "" voice sp g vr hv
    rw [hss, streamSegs_nil] at hrun
    simpa using hrun
  refine ⟨key f, ?_⟩
  unfold generate_audio
  rw [key (some "wav")]

theorem empty_text_stream_empty_witness :
    generate_audio_stream envV1 "" "v" 1 (some "wav") = .ok ([], []) ∧
    generate_audio envV1 "" "v" 1 = .error .emptyResult :=
  empty_text_stream_empty envV1 "v" 1 (some "wav") ⟨"v", "pv", none⟩ rfl rfl

theorem stream_units_enc (e : Env) (text voice : String) (sp : Rat)
    (fmt : String) (units : List Emitted) (calls : List CallArgs)
    (hrun : generate_audio_stream e text voice sp (some fmt) =
      .ok (units, calls)) :
    ∀ u ∈ units, u.isEnc = true := by
  rcases hgv : _get_voice_path e voice with err | vr
  · unfold generate_audio_stream at hrun
    rw [hgv] at hrun
    cases hrun
  · rw [stream_run e text voice sp (some fmt) vr hgv] at hrun
    split at hrun <;>
      [skip; (injection hrun with hrun; injection hrun with h1 h2)]
    · injection hrun with hrun
      injection hrun with h1 h2
      subst h1
      intro u hu
      rcases List.mem_append.mp hu with hu | hu
      · exact streamSegs_units_enc e vr.name vr.path sp fmt _ _ _ u hu
      · exact process_chunk_isEnc e "" [] vr.name vr.path sp fmt false true _ u hu
    · subst h1
      intro u hu
      exact streamSegs_units_enc e vr.name vr.path sp fmt _ _ _ u hu

theorem filterNdim_enc_head (b : Bytes) (fi la : Bool) (cs : List Emitted) :
    filterNdim (.enc b fi la :: cs) = .error .attributeError := rfl

/-- C10: `generate_audio` invokes `generate_audio_stream` with no
`output_format` argument, so the stream runs with the call's default
format `"wav"`; consequently every unit it collects, and any buffer it
returns, is an encoded byte payload produced by the encoder — never a raw
sample array. -/
theorem aggregate_collects_encoded (e : Env) (text voice : String)
    (sp : Rat) (units : List Emitted) (calls : List CallArgs)
    (hrun : generate_audio_stream e text voice sp (some "wav") =
      .ok (units, calls)) :
    generate_audio_stream e text voice sp = .ok (units, calls) ∧
    (∀ u ∈ units, u.isEnc = true) ∧
    (∀ u, generate_audio e text voice sp = .ok u → u.isEnc = true) := by
  have henc := stream_units_enc e text voice sp "wav" units calls hrun
  refine ⟨hrun, henc, ?_⟩
  intro u hga
  unfold generate_audio at hga
  rw [hrun] at hga
  rcases units with _ | ⟨c1, rest1⟩
  · simp at hga
  · rcases rest1 with _ | ⟨c2, rest⟩
    · simp at hga
      exact hga ▸ henc c1 (by simp)
    · have h1 : c1.isEnc = true := henc c1 (by simp)
      rcases c1 with a | ⟨b, fi, la⟩
      · exact absurd h1 (by simp [Emitted.isEnc])
      · simp [filterNdim_enc_head] at hga

theorem aggregate_collects_encoded_witness :
    generate_audio_stream envV1 "hi" "v" 1 =
      .ok ([.enc [1, 0] true false, .enc [1, 1] false true],
        [⟨"hi", [1], true, false⟩, ⟨"", [], false, true⟩]) ∧
    (∀ u ∈ [Emitted.enc [1, 0] true false, Emitted.enc [1, 1] false true],
      u.isEnc = true) ∧
    (∀ u, generate_audio envV1 "hi" "v" 1 = .ok u → u.isEnc = true) :=
  aggregate_collects_encoded envV1 "hi" "v" 1
    [.enc [1, 0] true false, .enc [1, 1] false true]
    [⟨"hi", [1], true, false⟩, ⟨"", [], false, true⟩] (by decide)

/-- C2 (counterexample): with the Kokoro-V1 backend streaming two audio
sub-chunks for the first (and only) segment, both sub-chunks are encoded
with `is_first_chunk=true` — the call-level flag is fixed before the
sub-chunk loop — so the emitted sequence contains two units encoded with
`is_first_chunk=true`, not exactly one as claimed. -/
theorem first_flag_not_unique_counterexample :
    generate_audio_stream envV1 "dd2" "v" 1 (some "wav") =
      .ok ([.enc [1, 0] true false, .enc [1, 1] true false,
            .enc [1, 2] false true],
        [⟨"dd", [7], true, false⟩, ⟨"", [], false, true⟩]) ∧
    ¬ ([Emitted.enc [1, 0] true false, Emitted.enc [1, 1] true false,
        Emitted.enc [1, 2] false true].countP Emitted.firstFlagOf = 1) := by
  constructor
  · decide
  · decide

/-- C2 (amended): for every run whose segment phase emits at least one
chunk (with `output_format` set and the finalization encode succeeding):
the units encoded with `is_first_chunk=true` form a nonempty prefix of the
output — they are exactly the units of the first segment call that emits
anything, so exactly one unit when that call emits a single unit — every
later unit has `is_first_chunk=false`, and the output ends with exactly
one trailing finalization unit encoded with `is_last_chunk=true` (all
segment-phase units carry `is_last_chunk=false`). -/
theorem first_prefix_single_trailer (e : Env) (text voice : String)
    (sp : Rat) (fmt : String) (vr : VoiceRes) (su : List Emitted)
    (idx : Nat) (ns : NState) (scalls : List CallArgs) (bf : Bytes)
    (nf : NState)
    (hv : _get_voice_path e voice = .ok vr)
    (hseg : streamSegs e vr.name vr.path sp (some fmt)
      (e.smart_split text) 0 0 = (su, idx, ns, scalls))
    (hidx : 0 < idx)
    (hfin : e.convert_audio [0] 24000 fmt false ns true = .ok (bf, nf)) :
    generate_audio_stream e text voice sp (some fmt) =
      .ok (su ++ [.enc bf false true], scalls ++ [⟨"", [], false, true⟩]) ∧
    (∀ u ∈ su, u.lastFlagOf = false) ∧
    (su ++ [Emitted.enc bf false true]).countP Emitted.lastFlagOf = 1 ∧
    (∃ k, 0 < k ∧
      (∀ u ∈ (su ++ [Emitted.enc bf false true]).take k,
        u.firstFlagOf = true) ∧
      (∀ u ∈ (su ++ [Emitted.enc bf false true]).drop k,
        u.firstFlagOf = false)) ∧
    (∀ u ∈ su ++ [Emitted.enc bf false true], u.isEnc = true) := by
  have hnl : ∀ u ∈ su, u.lastFlagOf = false := by
    have h := streamSegs_units_not_last e vr.name vr.path sp fmt
      (e.smart_split text) 0 0
    rw [hseg] at h
    exact h
  have hfinpc : (_process_chunk e "" [] vr.name vr.path sp (some fmt)
      false true ns).1 = [.enc bf false true] := by
    rw [process_chunk_eq,
      processChunkInner_last_some e "" [] vr.name vr.path sp fmt false ns,
      hfin]
  have hlen : idx = su.length := by
    have h := streamSegs_idx e vr.name vr.path sp (some fmt)
      (e.smart_split text) 0 0
    rw [hseg] at h
    simpa using h
  refine ⟨?_, hnl, ?_, ?_, ?_⟩
  · have hrun := stream_run e text voice sp (some fmt) vr hv
    rw [hseg] at hrun
    dsimp only at hrun
    rw [if_pos hidx, hfinpc] at hrun
    exact hrun
  · rw [List.countP_append,
      List.countP_eq_zero.mpr (by intro u hu; simp [hnl u hu])]
    rfl
  · have hsplit := streamSegs_first_split e vr.name vr.path sp fmt
      (e.smart_split text) 0
    rw [hseg] at hsplit
    have hsu : su ≠ [] := by
      intro h
      rw [h] at hlen
      simp at hlen
      omega
    rcases hsplit with hempty | ⟨k, hk, htake, hdrop⟩
    · exact absurd hempty hsu
    · by_cases hkle : k ≤ su.length
      · refine ⟨k, hk, ?_, ?_⟩
        · rw [List.take_append_eq_append_take]
          intro u hu
          rcases List.mem_append.mp hu with hu | hu
          · exact htake u hu
          · rw [Nat.sub_eq_zero_of_le hkle] at hu
            simp at hu
        · rw [List.drop_append_eq_append_drop]
          intro u hu
          rcases List.mem_append.mp hu with hu | hu
          · exact hdrop u hu
          · rw [Nat.sub_eq_zero_of_le hkle] at hu
            simp at hu
            subst hu
            rfl
      · refine ⟨su.length, List.length_pos.mpr hsu, ?_, ?_⟩
        · rw [List.take_left]
          intro u hu
          have hts : su.take k = su := List.take_of_length_le (by omega)
          exact htake u (by rw [hts]; exact hu)
        · rw [List.drop_left]
          intro u hu
          simp at hu
          subst hu
          rfl
  · intro u hu
    rcases List.mem_append.mp hu with hu | hu
    · have h := streamSegs_units_enc e vr.name vr.path sp fmt
        (e.smart_split text) 0 0
      rw [hseg] at h
      exact h u hu
    · simp at hu
      subst hu
      rfl

theorem first_prefix_single_trailer_witness :
    generate_audio_stream envV1 "hi" "v" 1 (some "wav") =
      .ok ([Emitted.enc [1, 0] true false] ++ [Emitted.enc [1, 1] false true],
        [⟨"hi", [1], true, false⟩] ++ [⟨"", [], false, true⟩]) ∧
    (∀ u ∈ [Emitted.enc [1, 0] true false], u.lastFlagOf = false) ∧
    ([Emitted.enc [1, 0] true false] ++
      [Emitted.enc [1, 1] false true]).countP Emitted.lastFlagOf = 1 ∧
    (∃ k, 0 < k ∧
      (∀ u ∈ ([Emitted.enc [1, 0] true false] ++
        [Emitted.enc [1, 1] false true]).take k, u.firstFlagOf = true) ∧
      (∀ u ∈ ([Emitted.enc [1, 0] true false] ++
        [Emitted.enc [1, 1] false true]).drop k, u.firstFlagOf = false)) ∧
    (∀ u ∈ [Emitted.enc [1, 0] true false] ++
      [Emitted.enc [1, 1] false true], u.isEnc = true) :=
  first_prefix_single_trailer envV1 "hi" "v" 1 "wav" ⟨"v", "pv", none⟩
    [.enc [1, 0] true false] 1 1 [⟨"hi", [1], true, false⟩] [1, 1] 2
    rfl (by decide) (by decide) (by decide)

theorem streamSegs_cons_eq (e : Env) (vn vp : String) (sp : Rat)
    (f : Option String) (t : String) (toks : List Int)
    (rest : List (String × List Int)) (idx : Nat) (n : NState)
    (items : List Emitted) (n2 : NState) (su2 : List Emitted) (idx2 : Nat)
    (ns2 : NState) (calls2 : List CallArgs)
    (hpc : _process_chunk e t toks vn vp sp f (idx == 0) false n =
      (items, n2, none))
    (hrest : streamSegs e vn vp sp f rest (idx + items.length) n2 =
      (su2, idx2, ns2, calls2)) :
    streamSegs e vn vp sp f ((t, toks) :: rest) idx n =
      (items ++ su2, idx2, ns2, ⟨t, toks, idx == 0, false⟩ :: calls2) := by
  rw [streamSegs_cons, hpc]
  dsimp only
  rw [hrest]

/-- C7: when the backend raises on the middle segment of three but
succeeds on the first and third, the stream still yields the chunks of the
succeeding segments plus a finalization unit, and the result is a normal
`.ok` — no exception surfaces to the caller. -/
theorem segment_failure_contained (e : Env) (text voice : String)
    (sp : Rat) (f : String) (vr : VoiceRes) (t1 t2 t3 : String)
    (k1 k2 k3 : List Int) (a1 a3 : Audio) (err : Err) (b1 b3 bf : Bytes)
    (n1 n3 nf : NState)
    (hv : _get_voice_path e voice = .ok vr)
    (hss : e.smart_split text = [(t1, k1), (t2, k2), (t3, k3)])
    (hb : e.backendV1 = true)
    (hk1 : ¬(k1 = [] ∧ t1 = "")) (hk2 : ¬(k2 = [] ∧ t2 = ""))
    (hk3 : ¬(k3 = [] ∧ t3 = ""))
    (hg1 : e.generateV1 t1 (vr.name, vr.path) sp = ([a1], none))
    (hg2 : e.generateV1 t2 (vr.name, vr.path) sp = ([], some err))
    (hg3 : e.generateV1 t3 (vr.name, vr.path) sp = ([a3], none))
    (hc1 : e.convert_audio a1 24000 f true 0 false = .ok (b1, n1))
    (hc3 : e.convert_audio a3 24000 f false n1 false = .ok (b3, n3))
    (hcf : e.convert_audio [0] 24000 f false n3 true = .ok (bf, nf)) :
    generate_audio_stream e text voice sp (some f) =
      .ok ([.enc b1 true false, .enc b3 false false, .enc bf false true],
        [⟨t1, k1, true, false⟩, ⟨t2, k2, false, false⟩,
          ⟨t3, k3, false, false⟩, ⟨"", [], false, true⟩]) := by
  have hpc1 : _process_chunk e t1 k1 vr.name vr.path sp (some f) true false 0 =
      ([.enc b1 true false], n1, none) := by
    rw [process_chunk_eq, processChunkInner_v1 e t1 k1 vr.name vr.path sp
      (some f) true 0 hb hk1, hg1]
    dsimp only
    rw [List.foldl_cons, List.foldl_nil, convFold_some]
    dsimp only
    rw [hc1]
    rfl
  have hpc2 : _process_chunk e t2 k2 vr.name vr.path sp (some f) false false n1 =
      ([], n1, none) := by
    rw [process_chunk_eq, processChunkInner_v1 e t2 k2 vr.name vr.path sp
      (some f) false n1 hb hk2, hg2]
    rfl
  have hpc3 : _process_chunk e t3 k3 vr.name vr.path sp (some f) false false n1 =
      ([.enc b3 false false], n3, none) := by
    rw [process_chunk_eq, processChunkInner_v1 e t3 k3 vr.name vr.path sp
      (some f) false n1 hb hk3, hg3]
    dsimp only
    rw [List.foldl_cons, List.foldl_nil, convFold_some]
    dsimp only
    rw [hc3]
    rfl
  have hpcf : _process_chunk e "" [] vr.name vr.path sp (some f) false true n3 =
      ([.enc bf false true], nf, none) := by
    rw [process_chunk_eq, processChunkInner_last_some e "" [] vr.name
      vr.path sp f false n3, hcf]
  have hs3 : streamSegs e vr.name vr.path sp (some f) [(t3, k3)] 1 n1 =
      ([.enc b3 false false], 2, n3, [⟨t3, k3, false, false⟩]) :=
    streamSegs_cons_eq e vr.name vr.path sp (some f) t3 k3 [] 1 n1
      [.enc b3 false false] n3 [] 2 n3 [] hpc3
      (streamSegs_nil e vr.name vr.path sp (some f) 2 n3)
  have hs2 : streamSegs e vr.name vr.path sp (some f)
      [(t2, k2), (t3, k3)] 1 n1 =
      ([.enc b3 false false], 2, n3,
        [⟨t2, k2, false, false⟩, ⟨t3, k3, false, false⟩]) :=
    streamSegs_cons_eq e vr.name vr.path sp (some f) t2 k2 [(t3, k3)] 1 n1
      [] n1 [.enc b3 false false] 2 n3 [⟨t3, k3, false, false⟩] hpc2 hs3
  have hsegs : streamSegs e vr.name vr.path sp (some f)
      [(t1, k1), (t2, k2), (t3, k3)] 0 0 =
      ([.enc b1 true false, .enc b3 false false], 2, n3,
        [⟨t1, k1, true, false⟩, ⟨t2, k2, false, false⟩,
          ⟨t3, k3, false, false⟩]) :=
    streamSegs_cons_eq e vr.name vr.path sp (some f) t1 k1
      [(t2, k2), (t3, k3)] 0 0 [.enc b1 true false] n1
      [.enc b3 false false] 2 n3
      [⟨t2, k2, false, false⟩, ⟨t3, k3, false, false⟩] hpc1 hs2
  have hrun := stream_run e text voice sp (some f) vr hv
  rw [hss, hsegs] at hrun
  dsimp only at hrun
  rw [if_pos (by omega : (0 : Nat) < 2)] at hrun
  rw [hpcf] at hrun
  exact hrun

theorem segment_failure_contained_witness :
    generate_audio_stream envV1 "abc" "v" 1 (some "wav") =
      .ok ([.enc [1, 0] true false, .enc [1, 1] false false,
            .enc [1, 2] false true],
        [⟨"a", [1], true, false⟩, ⟨"b", [2], false, false⟩,
          ⟨"c", [3], false, false⟩, ⟨"", [], false, true⟩]) :=
  segment_failure_contained envV1 "abc" "v" 1 "wav" ⟨"v", "pv", none⟩
    "a" "b" "c" [1] [2] [3] [1] [3] .modelFailure [1, 0] [1, 1] [1, 2]
    1 2 3 rfl rfl rfl (by decide) (by decide) (by decide)
    (by decide) (by decide) (by decide) (by decide) (by decide) (by decide)

/-- C3 (divergence, code evaluated at the failing input): for a text with
one segment producing the single raw chunk `[5]`, the concatenation of the
raw (unencoded) chunks of the stream is `[5]`, but `generate_audio` — which
runs the stream with its default `output_format="wav"` and therefore
collects encoded byte payloads (the chunk plus the finalization trailer) —
raises `AttributeError` when it evaluates `.ndim` on a `bytes` chunk,
instead of returning that raw sample buffer. -/
theorem raw_concat_vs_aggregate_divergence :
    streamRawConcat envV1 "hi" "v" 1 = .ok [5] ∧
    generate_audio envV1 "hi" "v" 1 = .error .attributeError := by
  constructor
  · decide
  · decide
